import Mathlib

/-
Verification of the ledger repository: a shallow embedding of the
transaction model (transaction.go), the parser fragments for dates,
amounts and attached comment lines (parse/parse.go, parse/lexer.go),
the merge ("zipper") engine and the tail tool (tools package), with
theorems settling the specification claims about them.

Go slices, maps and errors are embedded as follows: slices become
`List`, maps become association lists with unique keys, fallible
functions return `Except`, and a Go runtime panic (index or slice out
of range) is a distinguished error / `none` result.  Machine integers
(int64/int) are embedded as unbounded `Int`; no claim in scope
exercises overflow.
-/

set_option autoImplicit false

namespace Ledger

/-- Status constants for transactions and postings (`status` in transaction.go):
undefined | pending | cleared. -/
inductive TxStatus where
  | undefined
  | pending
  | clear
deriving DecidableEq

/-- Calendar date (year, month, day).  The Go code stores a `time.Time`; for
date-only values produced by `ParseDate` the wall-clock order of `time.Time`
is the lexicographic order on (year, month, day). -/
structure LDate where
  year : Nat
  month : Nat
  day : Nat
deriving DecidableEq

/-- `time.Time.Before` for date-only values: strict lexicographic order. -/
def LDate.before (a b : LDate) : Bool :=
  a.year < b.year ||
    (a.year == b.year && (a.month < b.month ||
      (a.month == b.month && a.day < b.day)))

/-- Posting is a single line item in a Transaction (transaction.go). -/
structure Posting where
  Status : TxStatus
  Account : String
  Value : Int
  Null : Bool
  Note : String
deriving DecidableEq

/-- Transaction is a single transaction from a ledger file (transaction.go).
The Go `map[string]bool` tag set and `map[string]string` key/value map are
embedded as lists with unique keys. -/
structure Transaction where
  Date : LDate
  ClearDate : LDate
  Status : TxStatus
  Code : String
  Description : String
  Postings : List Posting
  Comments : List String
  Tags : List String
  KVPairs : List (String × String)
  Line : Int
deriving DecidableEq

/-- Directive is a partially parsed command directive (directive.go).
The packed `lex.Location` is embedded as a plain `Nat`.  The Go field
`Type` is spelled `DirType` because `Type` is reserved in Lean. -/
structure Directive where
  DirType : String
  Argument : String
  Lines : List String
  FoundBefore : Int
  Location : Nat
deriving DecidableEq

/-- File is an ordered transaction list plus an ordered directive list
(file.go). -/
structure File where
  T : List Transaction
  D : List Directive
deriving DecidableEq

/-- Errors of the ledger package (transaction.go): `BalanceError` and
`MultipleNullError`, each carrying a transaction index and a line. -/
inductive LedgerErr where
  | balance (idx line : Int)
  | multipleNull (idx line : Int)
deriving DecidableEq

/-- Go map lookup `m[k]` on an association list. -/
def kvLookup (m : List (String × String)) (k : String) : Option String :=
  match m with
  | [] => none
  | (k', v) :: rest => if k' = k then some v else kvLookup rest k

/-- Go map assignment `m[k] = v` on an association list: replaces the
existing binding if present, otherwise appends a new one. -/
def kvUpdate (m : List (String × String)) (k : String) (v : String) :
    List (String × String) :=
  match m with
  | [] => [(k, v)]
  | (k', v') :: rest =>
      if k' = k then (k, v) :: rest else (k', v') :: kvUpdate rest k v

/-- Go map accumulation `accounts[k] += v` on an association list over `Int`
(missing keys default to 0). -/
def accAdd (m : List (String × Int)) (k : String) (v : Int) :
    List (String × Int) :=
  match m with
  | [] => [(k, v)]
  | (k', v') :: rest =>
      if k' = k then (k', v' + v) :: rest else (k', v') :: accAdd rest k v

/-- The shared posting scan of `Balance` and `Canonicalize`
(transaction.go lines 104-114 and 129-138): walk the postings keeping the
running balance of non-null postings and the index of the null posting seen
so far; a second null posting aborts (`return false, nil` / the
multiple-null error). -/
def scanPostings : List Posting → Int → Option Nat → Nat →
    Except Unit (Int × Option Nat)
  | [], bal, null, _ => .ok (bal, null)
  | p :: ps, bal, null, i =>
      if p.Null && null.isSome then .error ()
      else if p.Null then scanPostings ps bal (some i) (i + 1)
      else scanPostings ps (bal + p.Value) null (i + 1)

/-- The same scan additionally accumulating `accounts[p.Account] += p.Value`
for non-null postings, as in `Balance` (transaction.go line 113). -/
def balScan : List Posting → Int → Option Nat → List (String × Int) → Nat →
    Option (Int × Option Nat × List (String × Int))
  | [], bal, null, acc, _ => some (bal, null, acc)
  | p :: ps, bal, null, acc, i =>
      if p.Null && null.isSome then none
      else if p.Null then balScan ps bal (some i) acc (i + 1)
      else balScan ps (bal + p.Value) null (accAdd acc p.Account p.Value) (i + 1)

/-- `Transaction.Balance` (transaction.go lines 99-120).  Returns
`(false, none)` on multiple null postings (Go `false, nil`); with one null
posting its account absorbs the negated balance and the result is `true`;
with no null posting the result is `bal == 0`. -/
def Balance (t : Transaction) : Bool × Option (List (String × Int)) :=
  match balScan t.Postings 0 none [] 0 with
  | none => (false, none)
  | some (bal, some i, acc) =>
      match t.Postings.get? i with
      | some p => (true, some (accAdd acc p.Account (-bal)))
      | none => (true, some acc)
  | some (bal, none, acc) => (decide (bal = 0), some acc)

/-- `Transaction.Canonicalize` (transaction.go lines 125-147).  The Go
method mutates the receiver in place; the embedding returns the final state
of the transaction next to the error result.  The only mutation in the
source is `t.Postings[null].Value = -bal` on the success path, so both
error branches return the receiver unchanged. -/
def Canonicalize (t : Transaction) : Except LedgerErr Unit × Transaction :=
  match scanPostings t.Postings 0 none 0 with
  | .error _ => (.error (.multipleNull (-1) t.Line), t)
  | .ok (bal, some i) =>
      match t.Postings.get? i with
      | some p =>
          (.ok (), { t with Postings := t.Postings.set i { p with Value := -bal } })
      | none => (.ok (), t)
  | .ok (bal, none) =>
      if bal ≠ 0 then (.error (.balance (-1) t.Line), t) else (.ok (), t)

/-- Number of null (inferred) postings of a transaction; used to state the
multiple-inferred-postings claims. -/
def countNullPostings (t : Transaction) : Nat :=
  (t.Postings.filter (·.Null)).length

/- Example transactions used as witnesses (from the end-to-end examples in
the specification). -/

/-- The balanced example transaction: `Expenses:Food $20.00` plus an
inferred `Assets:C a s h` posting. -/
def exT1 : Transaction :=
  { Date := ⟨2012, 3, 10⟩, ClearDate := ⟨0, 0, 0⟩, Status := .clear,
    Code := "", Description := "TesT",
    Postings := [
      { Status := .undefined, Account := "Expenses:Food", Value := 200000,
        Null := false, Note := "" },
      { Status := .undefined, Account := "Assets:C a s h", Value := 0,
        Null := true, Note := "Poor wallet :(" }],
    Comments := ["Example"], Tags := ["Tag1", "Tag2"],
    KVPairs := [("Key", "Value")], Line := 1 }

/-- The malformed example transaction with two inferred postings:
`A $5`, `B`, `C`. -/
def exT2 : Transaction :=
  { Date := ⟨2012, 3, 10⟩, ClearDate := ⟨0, 0, 0⟩, Status := .undefined,
    Code := "", Description := "Desc",
    Postings := [
      { Status := .undefined, Account := "A", Value := 50000,
        Null := false, Note := "" },
      { Status := .undefined, Account := "B", Value := 0,
        Null := true, Note := "" },
      { Status := .undefined, Account := "C", Value := 0,
        Null := true, Note := "" }],
    Comments := [], Tags := [], KVPairs := [], Line := 1 }

/-- An unbalanced transaction with no inferred posting. -/
def exT3 : Transaction :=
  { Date := ⟨2012, 3, 10⟩, ClearDate := ⟨0, 0, 0⟩, Status := .undefined,
    Code := "", Description := "bad",
    Postings := [
      { Status := .undefined, Account := "A", Value := 50000,
        Null := false, Note := "" }],
    Comments := [], Tags := [], KVPairs := [], Line := 7 }

/-- Errors of the parse package (parse/errors.go): bad date, bad amount,
unexpected end of input, malformed transaction, malformed tag line; plus
`timeParse` for the error returned by Go's `time.Parse` at the end of
`ParseDate`. -/
inductive PErr where
  | badDate
  | badAmount
  | unexpectedEnd
  | malformed
  | malformedTagLine
  | timeParse
deriving DecidableEq

/-- Membership in the character set `" \t"` used by `cr.Eat(" \t")` and
`cr.Match(" \t")`. -/
def isBlank (c : Char) : Bool :=
  c == ' ' || c == '\t'

/-- `cr.Eat(" \t")`: consume blanks from the front of the stream. -/
def dropBlanks (s : List Char) : List Char :=
  s.dropWhile isBlank

/-- The numeric loop of the amount parser (parse/parse.go lines 365-389):
`for cr.MatchNumeric() || cr.C == '.' || cr.C == ','`, switching from the
`whole` accumulator to the `part` accumulator at the first `'.'`, skipping
`','`, and failing with unexpected-end when the input ends right after a
digit.  The stream is the remaining input; the embedding assumes the
amount is followed by at least a line terminator, as it is on every
posting line (so the stale-lookahead behaviour of the CharReader at end
of input is never reached). -/
def amountLoop : List Char → Int → Int → Bool → Bool →
    Except PErr (Int × Int × Bool × List Char)
  | [], whole, part, _, null => .ok (whole, part, null, [])
  | c :: rest, whole, part, inPart, null =>
      if c.isDigit || c == '.' || c == ',' then
        if c == '.' then
          if inPart || null then .error .badAmount
          else amountLoop rest whole part true null
        else if c == ',' then amountLoop rest whole part inPart null
        else
          let d : Int := (c.toNat : Int) - 48
          let whole' := if inPart then whole else whole * 10 + d
          let part' := if inPart then part * 10 + d else part
          if rest.isEmpty then .error .unexpectedEnd
          else amountLoop rest whole' part' inPart false
      else .ok (whole, part, null, c :: rest)

/-- The amount parser after the optional `$` marker (parse/parse.go lines
357-408): optional leading `-`, the numeric loop, then normalization of
the fractional accumulator by magnitude (`part > 9999` is a bad amount;
`part < 9` is scaled by 1000, `part < 99` by 100, `part < 9999` by 10)
and the final signed value `whole*10000 + part`.  A run that consumed no
digit yields `none` (a null amount). -/
def parseAmountAfterCur (s : List Char) : Except PErr (Option Int × List Char) :=
  let neg := match s with
    | '-' :: _ => true
    | _ => false
  let s1 := match s with
    | '-' :: rest => rest
    | _ => s
  match amountLoop s1 0 0 false true with
  | .error e => .error e
  | .ok (whole, part, null, rest) =>
      if null then .ok (none, rest)
      else
        let whole' := whole * 10000
        if part > 9999 then .error .badAmount
        else
          let part' :=
            if part < 9 then part * 1000
            else if part < 99 then part * 100
            else if part < 9999 then part * 10
            else part
          .ok (some (if neg then -(whole' + part') else whole' + part'), rest)

/-- The full amount section of `ParseLedgerRaw` (parse/parse.go lines
346-408): an optional `$` currency marker followed by optional blanks
(the input ending right after them is an unexpected end), then the
amount proper. -/
def parseAmount (s : List Char) : Except PErr (Option Int × List Char) :=
  match s with
  | '$' :: rest =>
      let r := dropBlanks rest
      if r.isEmpty then .error .unexpectedEnd else parseAmountAfterCur r
  | _ => parseAmountAfterCur s

/-- `roundToEven` (transaction.go lines 352-361): round the dropped digit
`ls` into `ms` using round-half-to-even, moving away from zero. -/
def roundToEven (ms ls : Int) : Int :=
  if ls > 5 ∨ (ls = 5 ∧ Int.tmod ms 2 ≠ 0) then
    if ms > 0 then ms + 1 else ms - 1
  else ms

/-- `formatHelper` (transaction.go lines 330-348): split a 1/10000-unit
value into whole units and two fractional digits, rounding the third
fractional digit to even and carrying into the whole part when the
rounded fraction reaches 100.  `Int.tdiv`/`Int.tmod` are Go's
truncated division and remainder. -/
def formatHelper (v : Int) : Int × Int × Int :=
  let ms := Int.tdiv v 10000
  let ls0 := Int.tdiv (Int.tmod v 10000) 100
  let ls1 := if ls0 < 0 then -ls0 else ls0
  let ls2 := roundToEven ls1 (Int.tdiv (Int.tmod v 100) 10)
  let ms' := if ls2 > 99 then ms + 1 else ms
  let ls3 := if ls2 > 99 then 0 else ls2
  (ms', Int.tdiv ls3 10, Int.tmod ls3 10)

/-- `FormatValueNumber` (transaction.go lines 325-328): format a value
without the currency marker, `fmt.Sprintf("%v.%v%v", ms, ls1, ls2)`. -/
def FormatValueNumber (v : Int) : String :=
  let r := formatHelper v
  toString r.1 ++ "." ++ toString r.2.1 ++ toString r.2.2

/-- Errors of the merge engine (tools/zipper, part_011): the no-sync-point
error, the cannot-order error, and the Go runtime panic raised by an
out-of-range slice index. -/
inductive MergeErr where
  | noSyncPoint
  | cannotOrder
  | indexOutOfRange
deriving DecidableEq

/-- `Directive.Compare` (directive.go lines 59-70): equality of Type,
Argument and the Lines list; FoundBefore and Location are not compared. -/
def Directive.Compare (d : Directive) (d2 : Directive) : Bool :=
  d.DirType == d2.DirType && d.Argument == d2.Argument && d.Lines == d2.Lines

/-- The directive merge of `ZipperHTTP` (part_011 lines 41-54): A's
directives followed by every directive of B that `Compare`s equal to none
of A's.  The subsequent Go loop `for _, d := range drs { d.FoundBefore = 0 }`
assigns to the loop's value copy `d`, not to the slice element, so it has
no effect: anchors are NOT reset, and the loop is embedded as the
identity. -/
def mergeDirectives (da db : List Directive) : List Directive :=
  da ++ db.filter (fun d2 => !(da.any (fun d1 => d2.Compare d1)))

/-- The sync-point search of `ZipperHTTP` (part_011 lines 60-65): scan the
master's transactions downward from the last index for one whose `Code`
equals B's first transaction's `Code`.  `b.T[0]` is dereferenced inside the
loop body, so an empty B panics only when A is non-empty.  An exhausted
scan ends at -1.  The `Nat` argument is the current index plus one, so the
initial call passes `a.T.length`. -/
def syncScan (ta tb : List Transaction) : Nat → Except MergeErr Int
  | 0 => .ok (-1)
  | i + 1 =>
      match ta.get? i, tb.get? 0 with
      | some x, some b0 =>
          if x.Code == b0.Code then .ok (i : Int) else syncScan ta tb i
      | some _, none => .error .indexOutOfRange
      | none, _ => .error .indexOutOfRange

/-- The matched-run loop after the sync point (part_011 lines 76-84), on
the remaining suffixes of A and B: while both current transactions share a
`Code`, copy A's entry and advance both.  The Go loop condition is a
disjunction (`i1 < len(a.T) || i2 < len(b.T)`), so reaching the end of
exactly one side dereferences an out-of-range index — a runtime panic.
Returns the copied run and the two remaining suffixes. -/
def matchPhase : List Transaction → List Transaction →
    Except MergeErr (List Transaction × List Transaction × List Transaction)
  | [], [] => .ok ([], [], [])
  | [], _ :: _ => .error .indexOutOfRange
  | _ :: _, [] => .error .indexOutOfRange
  | x :: xs, y :: ys =>
      if x.Code == y.Code then
        (fun r => (x :: r.1, r.2.1, r.2.2)) <$> matchPhase xs ys
      else .ok ([], x :: xs, y :: ys)

/-- `chooseAB` (part_011 lines 156-183): -1 means a's side first, 1 means
b's side first, 0 means undecided.  A key held by only one side puts that
side first; a key held by neither, or by both with equal values, is
undecided; both sides holding different values compare lexically. -/
def chooseAB (a b : List (String × String)) (key : String) : Int :=
  match kvLookup a key, kvLookup b key with
  | some _, none => -1
  | none, some _ => 1
  | none, none => 0
  | some id1, some id2 =>
      if id1 = id2 then 0
      else if id1 < id2 then -1
      else 1

/-- The diverged-tail interleave of `ZipperHTTP` (part_011 lines 87-151),
on the remaining suffixes of A and B: an exhausted side lets the other
drain; an earlier date goes first; on a date tie the `chooseAB` cascade
over "ID", "RID" and "FITID" decides, and if every key is undecided the
merge fails with the cannot-order error. -/
def divergedPhase : List Transaction → List Transaction →
    Except MergeErr (List Transaction)
  | [], [] => .ok []
  | [], y :: ys => (fun r => y :: r) <$> divergedPhase [] ys
  | x :: xs, [] => (fun r => x :: r) <$> divergedPhase xs []
  | x :: xs, y :: ys =>
      if x.Date.before y.Date then
        (fun r => x :: r) <$> divergedPhase xs (y :: ys)
      else if y.Date.before x.Date then
        (fun r => y :: r) <$> divergedPhase (x :: xs) ys
      else if chooseAB x.KVPairs y.KVPairs "ID" < 0 then
        (fun r => x :: r) <$> divergedPhase xs (y :: ys)
      else if 0 < chooseAB x.KVPairs y.KVPairs "ID" then
        (fun r => y :: r) <$> divergedPhase (x :: xs) ys
      else if chooseAB x.KVPairs y.KVPairs "RID" < 0 then
        (fun r => x :: r) <$> divergedPhase xs (y :: ys)
      else if 0 < chooseAB x.KVPairs y.KVPairs "RID" then
        (fun r => y :: r) <$> divergedPhase (x :: xs) ys
      else if chooseAB x.KVPairs y.KVPairs "FITID" < 0 then
        (fun r => x :: r) <$> divergedPhase xs (y :: ys)
      else if 0 < chooseAB x.KVPairs y.KVPairs "FITID" then
        (fun r => y :: r) <$> divergedPhase (x :: xs) ys
      else .error .cannotOrder
termination_by a b => a.length + b.length

/-- `ZipperHTTP` (part_011 lines 40-153): merge directives, search for the
sync point, copy the master's entries through the sync point (an index of
-1 copies nothing), run the matched-run loop starting after the sync point
on A and after index 0 on B, then interleave the diverged tails.  The Go
guard `if syncPoint == len(a.T)` is kept as written: the scan starts at
`len(a.T)-1` and only decreases, so the guard — and with it the
no-sync-point error — is unreachable. -/
def ZipperHTTP (a b : File) : Except MergeErr File :=
  let drs := mergeDirectives a.D b.D
  match syncScan a.T b.T a.T.length with
  | .error e => .error e
  | .ok syncPoint =>
      if syncPoint = (a.T.length : Int) then .error .noSyncPoint
      else
        let cut := (syncPoint + 1).toNat
        match matchPhase (a.T.drop cut) (b.T.drop 1) with
        | .error e => .error e
        | .ok (matched, ra, rb) =>
            match divergedPhase ra rb with
            | .error e => .error e
            | .ok tl => .ok ⟨a.T.take cut ++ matched ++ tl, drs⟩

/-- Follows the spec's words for one tie-break key: both sides holding the
key with differing values decides the order by lexical comparison (`true`
= A's side first); a key held by only one side puts that side first; both
absent or equal values leave the key undecided. -/
def specDecideKey (ka kb : List (String × String)) (key : String) : Option Bool :=
  match kvLookup ka key, kvLookup kb key with
  | some va, some vb => if va = vb then none else some (decide (va < vb))
  | some _, none => some true
  | none, some _ => some false
  | none, none => none

/-- Follows the spec's words for the whole tie-break: the first of "ID",
"RID", "FITID" that decides wins; if none decides, the transactions are
unorderable. -/
def specTieBreak (ka kb : List (String × String)) : Option Bool :=
  match specDecideKey ka kb "ID" with
  | some r => some r
  | none =>
      match specDecideKey ka kb "RID" with
      | some r => some r
      | none => specDecideKey ka kb "FITID"

/-- A minimal transaction with a given code, used by the merge examples. -/
def mkTx (code : String) : Transaction :=
  { Date := ⟨2021, 1, 1⟩, ClearDate := ⟨0, 0, 0⟩, Status := .undefined,
    Code := code, Description := "", Postings := [], Comments := [],
    Tags := [], KVPairs := [], Line := 1 }

/-- Master file for the C1 example: one transaction with code "a". -/
def exA1 : File := ⟨[mkTx "a"], []⟩

/-- Second file for the C1 example: one transaction with code "b", which
appears nowhere in the master. -/
def exB1 : File := ⟨[mkTx "b"], []⟩

/-- A directive anchored at transaction index 2. -/
def exD7 : Directive := ⟨"account", "Assets", [], 2, 0⟩

/-- Master file for the C7 example: one transaction and one directive with
a non-zero anchor. -/
def exA7 : File := ⟨[mkTx "a"], [exD7]⟩

/-- Second file for the C7 example: the same transaction, no directives. -/
def exB7 : File := ⟨[mkTx "a"], []⟩

/-- A transaction carrying an "ID" key, date-tied with `exTxB`. -/
def exTxA : Transaction := { mkTx "x" with KVPairs := [("ID", "aaa")] }

/-- A transaction carrying no keys, date-tied with `exTxA`. -/
def exTxB : Transaction := mkTx "y"

/-- The match test of `LTail`'s backward scan (part_007 lines 32-40): the
"ID" key must equal `id`, and when `rid` is non-empty the "RID" key must
also be present and equal `rid`. -/
def ltailMatch (t : Transaction) (id rid : String) : Bool :=
  match kvLookup t.KVPairs "ID" with
  | some fid =>
      fid == id && (rid == "" || kvLookup t.KVPairs "RID" == some rid)
  | none => false

/-- The backward scan of `LTail` (part_007 lines 30-41): from the last
index down to 0, stop at the first (i.e. the file's last) matching
transaction; an exhausted scan ends at -1.  The `Nat` argument is the
current index plus one, so the initial call passes `f.T.length`. -/
def ltailScan (ts : List Transaction) (id rid : String) : Nat → Int
  | 0 => -1
  | i + 1 =>
      match ts.get? i with
      | some t => if ltailMatch t id rid then (i : Int) else ltailScan ts id rid i
      | none => ltailScan ts id rid i

/-- Go slice expression `ts[i:]` with a possibly negative index: defined
for `0 ≤ i ≤ len(ts)`, a runtime panic (embedded as `none`) otherwise. -/
def goSliceFrom (ts : List Transaction) (i : Int) : Option (List Transaction) :=
  if 0 ≤ i ∧ i ≤ (ts.length : Int) then some (ts.drop i.toNat) else none

/-- The directive cut of `LTail` (part_007 lines 49-54): the first index
whose directive's anchor exceeds the cut position (the list's length if
none does). -/
def firstAnchorGt (ds : List Directive) (i : Int) : Nat :=
  match ds with
  | [] => 0
  | d :: rest => if d.FoundBefore > i then 0 else firstAnchorGt rest i + 1

/-- `LTail` (part_007 lines 28-64): find the last transaction matching
`id` (and `rid`), slice the transactions from that position — the Go
expression `f.T[i:]` panics when the scan found nothing and `i` is -1 —
then keep the directives anchored after the cut, rebasing their anchors
by subtracting the cut position. -/
def LTail (f : File) (id rid : String) : Option File :=
  let i := ltailScan f.T id rid f.T.length
  match goSliceFrom f.T i with
  | none => none
  | some rtrs =>
      let rdrs :=
        if f.D.length > 0 then
          (f.D.drop (firstAnchorGt f.D i)).map
            (fun d => { d with FoundBefore := d.FoundBefore - i })
        else f.D
      some ⟨rtrs, rdrs⟩

/-- A file whose only transaction has no "ID" key at all, so no `id`
matches it. -/
def exF3 : File := ⟨[mkTx "t"], []⟩

/-- `CharReader.ReadMatchLimit` (lexer.go lines 181-193) on a char-list
stream: consume matching characters while the limit is not reached,
stopping early — with a `false` report — when the input runs dry right
after a consumed character.  Otherwise the report is `i == limit`, i.e.
whether the read stopped due to the limit.  Returns
(report, collected, remaining). -/
def readMatchLimit (p : Char → Bool) :
    List Char → Nat → Nat → List Char → Bool × List Char × List Char
  | c :: rest, i, limit, acc =>
      if p c && decide (i < limit) then
        if rest.isEmpty then (false, acc ++ [c], [])
        else readMatchLimit p rest (i + 1) limit (acc ++ [c])
      else (decide (i = limit), acc, c :: rest)
  | [], i, limit, acc => (decide (i = limit), acc, [])

/-- Membership in the separator character set (slash, dash, dot) of `ParseDate`. -/
def isSep (c : Char) : Bool :=
  c == '/' || c == '-' || c == '.'

/-- The separator match of `ParseDate` (slash, dash, dot): true when a current character exists and is a
separator (false at end of input). -/
def headSep (s : List Char) : Bool :=
  match s with
  | c :: _ => isSep c
  | [] => false

/-- Numeric value of a digit string, as Go's date parsing reads it back. -/
def digitsToNat (ds : List Char) : Nat :=
  ds.foldl (fun a c => a * 10 + (c.toNat - 48)) 0

/-- Go's Gregorian leap-year rule (time package). -/
def goIsLeap (y : Nat) : Bool :=
  y % 4 == 0 && (y % 100 != 0 || y % 400 == 0)

/-- Days in a month per Go's time package. -/
def goDaysIn (y m : Nat) : Nat :=
  if m = 2 then (if goIsLeap y then 29 else 28)
  else if m = 4 ∨ m = 6 ∨ m = 9 ∨ m = 11 then 30
  else 31

/-- The range validation Go's `time.Parse` applies to a parsed
year/month/day: month 1..12 and day 1..days-in-month. -/
def timeValid (y m d : Nat) : Bool :=
  1 ≤ m && m ≤ 12 && 1 ≤ d && d ≤ goDaysIn y m

/-- Models the final `time.Parse("2006/01/02", string(date))` call of
`ParseDate` (parse.go line 514) on the exact-width digit groups collected
by the reader: read the numeric fields back and range-check them; a
failed check is the error `time.Parse` itself returns (distinct from the
parse package's own errors). -/
def goTimeParse (dy dm dd rest : List Char) : Except PErr (LDate × List Char) :=
  let y := digitsToNat dy
  let m := digitsToNat dm
  let d := digitsToNat dd
  if timeValid y m d then .ok (⟨y, m, d⟩, rest) else .error .timeParse

/-- `ParseDate` (parse.go lines 473-515): four digits (a failed or
end-cut read is a bad date; a dead end-of-input check follows), a
separator, two digits, a separator, two digits, then `time.Parse` on the
collected string.  `r.1` is the limit report, `r.2.1` the collected
digits, `r.2.2` the remaining stream. -/
def ParseDate (s : List Char) : Except PErr (LDate × List Char) :=
  let r1 := readMatchLimit Char.isDigit s 0 4 []
  if !r1.1 then .error .badDate
  else if r1.2.2.isEmpty then .error .unexpectedEnd
  else if !headSep r1.2.2 then .error .badDate
  else
    let r2 := readMatchLimit Char.isDigit r1.2.2.tail 0 2 []
    if !r2.1 then .error .badDate
    else if r2.2.2.isEmpty then .error .unexpectedEnd
    else if !headSep r2.2.2 then .error .badDate
    else
      let r3 := readMatchLimit Char.isDigit r2.2.2.tail 0 2 []
      if !r3.1 then .error .badDate
      else if r3.2.2.isEmpty then .error .unexpectedEnd
      else goTimeParse r1.2.1 r2.2.1 r3.2.1 r3.2.2

/-- Outcome of classifying one attached comment line: nothing (an
all-blank line), a tag list, one key/value pair, or one free comment. -/
inductive CommentResult where
  | blank
  | tags (ts : List String)
  | kv (k v : String)
  | comment (c : String)
deriving DecidableEq

/-- The ASCII white-space class of Go's `strings.TrimSpace`
(non-ASCII Unicode spaces are out of the embedding's scope; line content
never contains a newline). -/
def isGoSpace (c : Char) : Bool :=
  c == ' ' || c == '\t' || c == '\n' || c == '\x0b' || c == '\x0c' || c == '\r'

/-- Go `strings.TrimSpace` on a character list. -/
def goTrimSpace (l : List Char) : List Char :=
  ((l.dropWhile isGoSpace).reverse.dropWhile isGoSpace).reverse

/-- `cr.NMatch(" \t")` one line of text: the lookahead is the next
character of the line, or the terminating newline (not a blank) when the
line is exhausted. -/
def nextIsBlank (s : List Char) : Bool :=
  match s with
  | c :: _ => isBlank c
  | [] => false

/-- Go set insertion `current.Tags[tag] = true` on a list with unique
elements. -/
def tagsAdd (tags : List String) (t : String) : List String :=
  if tags.contains t then tags else tags ++ [t]

/-- The five-state attached-comment machine of `ParseLedgerRaw`
(parse.go lines 157-274), running over the characters of one comment
line (the text after `;`, leading blanks already eaten, up to but not
including the terminating newline — so the unexpected-end checks inside
the loop never fire).  State 0 starts; state 1 reads `:`-separated tags;
state 2 reads a candidate key, moving to state 3 (value) at a colon whose
lookahead is a blank, and to state 4 (plain comment) at any blank or at a
colon without a blank lookahead; states 3 and 4 consume the rest of the
line.  Returns the final state, the line buffer, the saved key and the
collected tags. -/
def commentMachine : List Char → Nat → List Char → List Char → List String →
    Nat × List Char × List Char × List String
  | [], state, ln, key, tags => (state, ln, key, tags)
  | c :: rest, state, ln, key, tags =>
      if state = 0 then
        if c = ':' then commentMachine rest 1 ln key tags
        else commentMachine rest 2 (ln ++ [c]) key tags
      else if state = 1 then
        if c = ':' then
          let tag := goTrimSpace ln
          if tag ≠ [] then
            commentMachine (dropBlanks rest) 1 [] key
              (tagsAdd tags (String.mk tag))
          else commentMachine (dropBlanks rest) 1 ln key tags
        else commentMachine rest 1 (ln ++ [c]) key tags
      else if state = 2 then
        if c = ':' then
          if nextIsBlank rest then commentMachine (dropBlanks rest) 3 [] ln tags
          else commentMachine rest 4 (ln ++ [c]) key tags
        else if isBlank c then commentMachine rest 4 (ln ++ [c]) key tags
        else commentMachine rest 2 (ln ++ [c]) key tags
      else commentMachine rest state (ln ++ [c]) key tags
termination_by s _ _ _ _ => s.length
decreasing_by
  all_goals simp_wf
  all_goals
    (have hle : ∀ (l : List Char), (l.dropWhile isBlank).length ≤ l.length := by
      intro l
      induction l with
      | nil => simp
      | cons a l ih =>
        by_cases h : isBlank a = true
        · simp [List.dropWhile, h]
          omega
        · simp [List.dropWhile, h]
     have := hle rest
     simp only [dropBlanks]
     omega)

/-- The per-line outcome of the attached-comment branch of
`ParseLedgerRaw` (parse.go lines 145-296): eat the blanks after `;`, run
the machine over the line, then record tags (rejecting a non-blank
residue as a malformed tag line), one key/value pair, or one trimmed free
comment. -/
def classifyCommentLine (lineRaw : List Char) : Except PErr CommentResult :=
  let cs := dropBlanks lineRaw
  match commentMachine cs 0 [] [] [] with
  | (state, ln, key, tags) =>
      if state = 1 then
        if ln.all isBlank then .ok (.tags tags) else .error .malformedTagLine
      else if state = 3 then
        .ok (.kv (String.mk key) (String.mk (goTrimSpace ln)))
      else if state = 2 ∨ state = 4 then
        .ok (.comment (String.mk (goTrimSpace ln)))
      else .ok .blank

/-- The key/value split the state-2 machine recognizes, as a pure
function of the remaining line: the first colon must be immediately
followed by a blank and preceded only by non-blank non-colon key
characters; the split returns (key characters, remainder after the
colon). -/
def findKVSplit : List Char → Option (List Char × List Char)
  | [] => none
  | c :: rest =>
      if isBlank c then none
      else if c = ':' then
        (if nextIsBlank rest then some ([], rest) else none)
      else (findKVSplit rest).map (fun pr => (c :: pr.1, pr.2))

/- Lemmas about the posting scan. -/

/-- Once a null posting has been recorded, a successful scan can only
report that same index. -/
theorem scan_some_null (ps : List Posting) :
    ∀ bal m i b j, scanPostings ps bal (some m) i = .ok (b, j) → j = some m := by
  induction ps with
  | nil =>
    intro bal m i b j h
    simp only [scanPostings] at h
    cases h
    rfl
  | cons p ps ih =>
    intro bal m i b j h
    simp only [scanPostings, Option.isSome_some, Bool.and_true] at h
    by_cases hp : p.Null
    · simp [hp] at h
    · simp only [hp, Bool.false_eq_true, if_false] at h
      exact ih _ _ _ _ _ h

/-- Once a null posting has been recorded, a further null posting in the
remaining list makes the scan fail. -/
theorem scan_some_null_error (ps : List Posting) :
    ∀ bal m i, (ps.any (·.Null)) = true →
      scanPostings ps bal (some m) i = .error () := by
  induction ps with
  | nil =>
    intro bal m i h
    simp at h
  | cons p ps ih =>
    intro bal m i h
    by_cases hp : p.Null
    · simp [scanPostings, hp]
    · simp only [List.any_cons, hp, Bool.false_or] at h
      simp only [scanPostings, hp, Bool.false_and, Bool.false_eq_true, if_false]
      exact ih _ _ _ h

/-- Two or more null postings make the scan fail. -/
theorem scan_multi_error (ps : List Posting) :
    ∀ bal i, 2 ≤ (ps.filter (·.Null)).length →
      scanPostings ps bal none i = .error () := by
  induction ps with
  | nil =>
    intro bal i h
    simp at h
  | cons p ps ih =>
    intro bal i h
    by_cases hp : p.Null
    · have hany : (ps.any (·.Null)) = true := by
        simp only [List.filter_cons, hp, if_pos] at h
        simp only [List.length_cons] at h
        have : 1 ≤ (ps.filter (·.Null)).length := by omega
        rcases List.exists_mem_of_length_pos (l := ps.filter (·.Null)) (by omega) with ⟨x, hx⟩
        rcases List.mem_filter.mp hx with ⟨hmem, hnull⟩
        simp only [List.any_eq_true]
        exact ⟨x, hmem, hnull⟩
      simp only [scanPostings, hp, Option.isSome_none, Bool.and_false,
        Bool.false_eq_true, if_false, if_pos trivial]
      exact scan_some_null_error ps _ _ _ hany
    · simp only [List.filter_cons, hp, Bool.false_eq_true, if_false] at h
      simp only [scanPostings, hp, Bool.false_and, Bool.false_eq_true, if_false]
      exact ih _ _ h

/-- A successful scan that reports a null posting: the null posting really
is at the reported index, and overwriting its `Value` does not change the
scan's outcome (the null posting's value never enters the balance). -/
theorem scan_found (ps : List Posting) :
    ∀ bal n b j, scanPostings ps bal none n = .ok (b, some j) →
      ∃ k p, ps.get? k = some p ∧ p.Null = true ∧ j = n + k ∧
        ∀ v, scanPostings (ps.set k { p with Value := v }) bal none n =
          .ok (b, some j) := by
  induction ps with
  | nil =>
    intro bal n b j h
    simp only [scanPostings] at h
    cases h
  | cons p ps ih =>
    intro bal n b j h
    by_cases hp : p.Null
    · simp only [scanPostings, hp, Option.isSome_none, Bool.and_false,
        Bool.false_eq_true, if_false, if_pos trivial] at h
      have hj := scan_some_null ps _ _ _ _ _ h
      cases hj
      refine ⟨0, p, rfl, hp, by omega, ?_⟩
      intro v
      show scanPostings ({ p with Value := v } :: ps) bal none n = _
      simp only [scanPostings, hp, Option.isSome_none, Bool.and_false,
        Bool.false_eq_true, if_false, if_true]
      exact h
    · simp only [scanPostings, hp, Bool.false_and, Bool.false_eq_true, if_false] at h
      rcases ih _ _ _ _ h with ⟨k, p₀, hget, hnull, hjk, hset⟩
      refine ⟨k + 1, p₀, by simpa using hget, hnull, by omega, ?_⟩
      intro v
      show scanPostings (p :: ps.set k { p₀ with Value := v }) bal none n = _
      simp only [scanPostings, hp, Bool.false_and, Bool.false_eq_true, if_false]
      exact hset v

/-- `balScan` fails exactly when `scanPostings` fails. -/
theorem balScan_err (ps : List Posting) :
    ∀ bal null acc i, scanPostings ps bal null i = .error () →
      balScan ps bal null acc i = none := by
  induction ps with
  | nil =>
    intro bal null acc i h
    simp [scanPostings] at h
  | cons p ps ih =>
    intro bal null acc i h
    simp only [scanPostings] at h
    simp only [balScan]
    by_cases hb : (p.Null && null.isSome) = true
    · simp [hb]
    · rw [if_neg hb] at h ⊢
      by_cases hp : p.Null
      · rw [if_pos hp] at h ⊢
        exact ih _ _ _ _ h
      · rw [if_neg hp] at h ⊢
        exact ih _ _ _ _ h

/-- A successful `scanPostings` yields a successful `balScan` with the same
balance and null index. -/
theorem balScan_ok (ps : List Posting) :
    ∀ bal null acc i b j, scanPostings ps bal null i = .ok (b, j) →
      ∃ acc', balScan ps bal null acc i = some (b, j, acc') := by
  induction ps with
  | nil =>
    intro bal null acc i b j h
    simp only [scanPostings] at h
    cases h
    exact ⟨acc, rfl⟩
  | cons p ps ih =>
    intro bal null acc i b j h
    simp only [scanPostings] at h
    simp only [balScan]
    by_cases hb : (p.Null && null.isSome) = true
    · simp [hb] at h
    · rw [if_neg hb] at h ⊢
      by_cases hp : p.Null
      · rw [if_pos hp] at h ⊢
        exact ih _ _ _ _ _ _ h
      · rw [if_neg hp] at h ⊢
        exact ih _ _ _ _ _ _ h

/-- C6: for every Transaction on which Canonicalize returns no error, a
subsequent call to Balance reports balanced (returns true); and for every
Transaction containing two or more null (inferred) postings, Canonicalize
always fails with the multiple-inferred-postings error and Balance returns
false with no per-account result. -/
theorem C6_canonicalize_then_balance :
    ∀ t : Transaction,
      ((Canonicalize t).1 = .ok () → (Balance (Canonicalize t).2).1 = true)
      ∧ (2 ≤ countNullPostings t →
          (Canonicalize t).1 = .error (.multipleNull (-1) t.Line)
          ∧ Balance t = (false, none)) := by
  intro t
  constructor
  · intro h
    cases hscan : scanPostings t.Postings 0 none 0 with
    | error e =>
      simp [Canonicalize, hscan] at h
    | ok r =>
      obtain ⟨bal, j⟩ := r
      cases j with
      | none =>
        by_cases hb : bal = 0
        · simp only [Canonicalize, hscan, hb, ne_eq, not_true_eq_false,
            if_false]
          subst hb
          rcases balScan_ok t.Postings 0 none [] 0 _ _ hscan with ⟨acc, hbs⟩
          simp [Balance, hbs]
        · simp [Canonicalize, hscan, hb] at h
      | some i =>
        rcases scan_found t.Postings 0 0 bal i hscan with
          ⟨k, p, hget, hnull, hik, hset⟩
        have hik' : i = k := by omega
        subst hik'
        simp only [Canonicalize, hscan, hget]
        rcases balScan_ok (t.Postings.set i { p with Value := -bal })
            0 none [] 0 _ _ (hset (-bal)) with ⟨acc, hbs⟩
        simp only [Balance, hbs]
        cases (t.Postings.set i { p with Value := -bal }).get? i <;> simp
  · intro h2
    have hscan := scan_multi_error t.Postings 0 0 h2
    have hbs := balScan_err t.Postings 0 none [] 0 hscan
    exact ⟨by simp [Canonicalize, hscan], by simp [Balance, hbs]⟩

/-- Witness for C6 at the two example transactions. -/
theorem C6_witness :
    (Balance (Canonicalize exT1).2).1 = true
    ∧ (Canonicalize exT2).1 = .error (.multipleNull (-1) exT2.Line)
    ∧ Balance exT2 = (false, none) :=
  ⟨(C6_canonicalize_then_balance exT1).1 rfl,
   ((C6_canonicalize_then_balance exT2).2 (by decide)).1,
   ((C6_canonicalize_then_balance exT2).2 (by decide)).2⟩

/-- C10: whenever Canonicalize returns an error (multiple null postings, or
no null posting and a non-zero sum), the transaction is left completely
unchanged; the single in-place mutation of the null posting's value happens
only on the success path. -/
theorem C10_canonicalize_error_unchanged :
    ∀ (t : Transaction) (e : LedgerErr),
      (Canonicalize t).1 = .error e → (Canonicalize t).2 = t := by
  intro t e h
  cases hscan : scanPostings t.Postings 0 none 0 with
  | error u =>
    simp [Canonicalize, hscan]
  | ok r =>
    obtain ⟨bal, j⟩ := r
    cases j with
    | none =>
      by_cases hb : bal = 0
      · simp [Canonicalize, hscan, hb] at h
      · simp [Canonicalize, hscan, hb]
    | some i =>
      cases hget : t.Postings.get? i with
      | some p =>
        simp only [Canonicalize, hscan, hget] at h
        simp at h
      | none =>
        simp only [Canonicalize, hscan, hget]

/-- Witness for C10 at a concrete unbalanced transaction. -/
theorem C10_witness : (Canonicalize exT3).2 = exT3 :=
  C10_canonicalize_error_unchanged exT3 (.balance (-1) 7) rfl

/-- C4: the amount round-trip law fails on the code.  The claim's own
example instance holds ("20.00" parses to 200000 and formats back to
"20.00"), but "20.05" — a valid decimal string with two fractional
digits — parses to 205000 (the code scales the fractional accumulator by
magnitude, so the fraction 05 is multiplied by 1000) and formats back to
"20.50". -/
theorem C4_amount_round_trip_fails :
    parseAmount ("20.05\n".data) = .ok (some 205000, ['\n'])
    ∧ FormatValueNumber 205000 = "20.50"
    ∧ ("20.50" : String) ≠ "20.05"
    ∧ parseAmount ("20.00\n".data) = .ok (some 200000, ['\n'])
    ∧ FormatValueNumber 200000 = "20.00" :=
  ⟨rfl, rfl, by decide, rfl, rfl⟩

/-- C5: the fractional accumulator is scaled by its magnitude, not by its
digit count, and the more-than-4-digits check compares the accumulator's
value, not the digit count.  The 2-digit fraction "05" of "1.05" is
multiplied by 1000 (value 15000) where the claim demands 100 (value
10500); the 5-digit fraction of "0.00005" is accepted (value 5000)
where the claim demands a bad-amount error. -/
theorem C5_fraction_scaling_bug :
    parseAmount ("1.05\n".data) = .ok (some 15000, ['\n'])
    ∧ (15000 : Int) ≠ 1 * 10000 + 5 * 100
    ∧ parseAmount ("0.00005\n".data) = .ok (some 5000, ['\n'])
    ∧ parseAmount ("-1.05\n".data) = .ok (some (-15000), ['\n']) :=
  ⟨rfl, by decide, rfl, rfl⟩

/-- A date never sorts strictly before itself. -/
theorem before_self_false (d : LDate) : d.before d = false := by
  simp [LDate.before]

/-- The per-key decision of the spec agrees with `chooseAB`: `some true`
is a negative result, `some false` a positive one, `none` is zero. -/
theorem specDecideKey_chooseAB (ka kb : List (String × String)) (key : String) :
    (specDecideKey ka kb key = some true ↔ chooseAB ka kb key < 0)
    ∧ (specDecideKey ka kb key = some false ↔ 0 < chooseAB ka kb key)
    ∧ (specDecideKey ka kb key = none ↔ chooseAB ka kb key = 0) := by
  unfold specDecideKey chooseAB
  cases kvLookup ka key with
  | none =>
    cases kvLookup kb key with
    | none => refine ⟨?_, ?_, ?_⟩ <;> constructor <;> intro h <;> simp_all
    | some vb => refine ⟨?_, ?_, ?_⟩ <;> constructor <;> intro h <;> simp_all
  | some va =>
    cases kvLookup kb key with
    | none => refine ⟨?_, ?_, ?_⟩ <;> constructor <;> intro h <;> simp_all
    | some vb =>
      by_cases hvv : va = vb
      · simp only [hvv, if_pos rfl]
        refine ⟨?_, ?_, ?_⟩ <;> constructor <;> intro h <;> simp_all
      · by_cases hlt : va < vb
        · simp only [if_neg hvv, if_pos hlt, hlt, decide_eq_true_eq]
          refine ⟨?_, ?_, ?_⟩ <;> constructor <;> intro h <;> simp_all
        · simp only [if_neg hvv, if_neg hlt]
          rw [decide_eq_false hlt]
          refine ⟨?_, ?_, ?_⟩ <;> constructor <;> intro h <;> simp_all

/-- C2: in the diverged-tail phase, on an exact date tie the next emitted
transaction is decided by the cascade over the "ID", "RID" and "FITID"
keys described by the spec (`specTieBreak`): `some true` emits A's
transaction, `some false` emits B's, and an undecided cascade fails with
the cannot-order error instead of emitting either side. -/
theorem C2_diverged_tiebreak :
    ∀ (x y : Transaction) (xs ys : List Transaction), x.Date = y.Date →
      divergedPhase (x :: xs) (y :: ys) =
        match specTieBreak x.KVPairs y.KVPairs with
        | some true => (fun r => x :: r) <$> divergedPhase xs (y :: ys)
        | some false => (fun r => y :: r) <$> divergedPhase (x :: xs) ys
        | none => .error .cannotOrder := by
  intro x y xs ys hd
  have hxy : x.Date.before y.Date = false := by
    rw [hd]; exact before_self_false _
  have hyx : y.Date.before x.Date = false := by
    rw [hd]; exact before_self_false _
  have hID := specDecideKey_chooseAB x.KVPairs y.KVPairs "ID"
  have hRID := specDecideKey_chooseAB x.KVPairs y.KVPairs "RID"
  have hFITID := specDecideKey_chooseAB x.KVPairs y.KVPairs "FITID"
  simp only [divergedPhase, hxy, hyx, Bool.false_eq_true, if_false]
  simp only [specTieBreak]
  cases h1 : specDecideKey x.KVPairs y.KVPairs "ID" with
  | some b =>
    cases b with
    | true =>
      rw [if_pos (hID.1.mp h1)]
    | false =>
      have h1' := hID.2.1.mp h1
      rw [if_neg (by omega), if_pos h1']
  | none =>
    have h1' := hID.2.2.mp h1
    rw [if_neg (by omega), if_neg (by omega)]
    cases h2 : specDecideKey x.KVPairs y.KVPairs "RID" with
    | some b =>
      cases b with
      | true =>
        rw [if_pos (hRID.1.mp h2)]
      | false =>
        have h2' := hRID.2.1.mp h2
        rw [if_neg (by omega), if_pos h2']
    | none =>
      have h2' := hRID.2.2.mp h2
      rw [if_neg (by omega), if_neg (by omega)]
      cases h3 : specDecideKey x.KVPairs y.KVPairs "FITID" with
      | some b =>
        cases b with
        | true =>
          rw [if_pos (hFITID.1.mp h3)]
        | false =>
          have h3' := hFITID.2.1.mp h3
          rw [if_neg (by omega), if_pos h3']
      | none =>
        have h3' := hFITID.2.2.mp h3
        rw [if_neg (by omega), if_neg (by omega)]

/-- Witness for C2: `exTxA` carries an "ID" key and `exTxB` does not, with
equal dates, so A's transaction is emitted first. -/
theorem C2_witness :
    divergedPhase [exTxA] [exTxB] =
      (fun r => exTxA :: r) <$> divergedPhase [] [exTxB] := by
  have h := C2_diverged_tiebreak exTxA exTxB [] [] rfl
  simpa [specTieBreak, specDecideKey, kvLookup, exTxA, exTxB, mkTx] using h

/-- C1: the no-sync-point error is unreachable.  With A holding only code
"a" and B holding only code "b" (no occurrence of B's first identifier in
A), `ZipperHTTP` does not fail with the no-sync-point error — the guard
compares the scan result to `len(a.T)` although the exhausted scan ends at
-1 — and instead proceeds, dereferencing B out of range (a Go panic). -/
theorem C1_no_sync_point_unreachable :
    ZipperHTTP exA1 exB1 = .error .indexOutOfRange
    ∧ ZipperHTTP exA1 exB1 ≠ .error .noSyncPoint := by
  refine ⟨rfl, ?_⟩
  rw [show ZipperHTTP exA1 exB1 = .error .indexOutOfRange from rfl]
  simp

/-- C7: merged directives keep their original anchors.  The example merge
succeeds and returns the directive `exD7` with its anchor still 2, because
the reset loop in the source writes to the range copy; the claim demands
anchor 0 on every merged directive. -/
theorem C7_anchor_not_reset :
    ZipperHTTP exA7 exB7 = .ok ⟨[mkTx "a"], [exD7]⟩
    ∧ exD7.FoundBefore = 2 := by
  have hdp : divergedPhase [] [] = .ok [] := by simp [divergedPhase]
  constructor
  · show (match divergedPhase [] [] with
      | .error e => (.error e : Except MergeErr File)
      | .ok tl => .ok ⟨(exA1.T.take 1) ++ [] ++ tl, [exD7]⟩) = _
    rw [hdp]
    rfl
  · rfl

/-- When no transaction matches, the backward scan ends at -1. -/
theorem ltailScan_none (ts : List Transaction) (id rid : String)
    (h : ∀ t ∈ ts, ltailMatch t id rid = false) :
    ∀ k, ltailScan ts id rid k = -1 := by
  intro k
  induction k with
  | zero => rfl
  | succ i ih =>
    simp only [ltailScan]
    cases hg : ts.get? i with
    | some t =>
      have ht : t ∈ ts := List.get?_mem hg
      simpa [h t ht] using ih
    | none => exact ih

/-- C3 counterexample: on a file whose transactions carry no matching
"ID", `LTail` does not return the whole file (the claim's asserted
defined result); the Go code slices `f.T[-1:]`, a runtime panic, embedded
as `none`. -/
theorem C3_counterexample :
    LTail exF3 "x" "" ≠ some exF3 ∧ LTail exF3 "x" "" = none := by
  refine ⟨?_, rfl⟩
  rw [show LTail exF3 "x" "" = none from rfl]
  simp

/-- C3 amended: for every File and identifier such that no transaction
matches, `tail` does not produce a defined result at all: the backward
scan ends at index -1 and the slice `f.T[-1:]` is out of bounds — a
runtime panic (`none`), not the whole file, an error value, or an empty
file. -/
theorem C3_tail_not_found_panics :
    ∀ (f : File) (id rid : String),
      (∀ t ∈ f.T, ltailMatch t id rid = false) →
      LTail f id rid = none := by
  intro f id rid h
  have hscan := ltailScan_none f.T id rid h f.T.length
  simp only [LTail, hscan]
  have : goSliceFrom f.T (-1) = none := by
    simp [goSliceFrom]
  rw [this]

/-- Witness for the amended C3 at a concrete file. -/
theorem C3_witness : LTail exF3 "x" "" = none :=
  C3_tail_not_found_panics exF3 "x" "" (by decide)

/-- Inversion of a limit-reported read: the stream splits into exactly
`limit - i` matching characters and a non-empty remainder. -/
theorem rml_true_elim (p : Char → Bool) :
    ∀ (s : List Char) (i limit : Nat) (acc col r : List Char),
      i ≤ limit → (i = limit → s ≠ []) →
      readMatchLimit p s i limit acc = (true, col, r) →
      ∃ d, s = d ++ r ∧ col = acc ++ d ∧ d.length = limit - i ∧
        (∀ c ∈ d, p c = true) ∧ r ≠ [] := by
  intro s
  induction s with
  | nil =>
    intro i limit acc col r hle hg h
    simp only [readMatchLimit, Prod.mk.injEq, decide_eq_true_eq] at h
    exact absurd rfl (hg h.1)
  | cons c rest ih =>
    intro i limit acc col r hle hg h
    simp only [readMatchLimit] at h
    by_cases hpc : (p c && decide (i < limit)) = true
    · rw [if_pos hpc] at h
      have hpc' : p c = true ∧ i < limit := by simpa using hpc
      obtain ⟨hp, hlt'⟩ := hpc'
      by_cases hre : rest = []
      · rw [if_pos (by simp [hre])] at h
        simp at h
      · rw [if_neg (by simp [hre])] at h
        rcases ih (i + 1) limit (acc ++ [c]) col r (by omega)
            (fun _ => hre) h with ⟨d, hs, hcol, hlen, hall, hr⟩
        refine ⟨c :: d, by simp [hs], by simp [hcol],
          by simp only [List.length_cons]; omega, ?_, hr⟩
        intro x hx
        rcases List.mem_cons.mp hx with hx | hx
        · exact hx ▸ hp
        · exact hall x hx
    · rw [if_neg hpc] at h
      simp only [Prod.mk.injEq, decide_eq_true_eq] at h
      obtain ⟨hil, hacc, hcr⟩ := h
      refine ⟨[], by simp [hcr], by simp [hacc], ?_, by simp, ?_⟩
      · simp only [List.length_nil]
        omega
      · rw [← hcr]
        simp

/-- A read over exactly `limit - i` matching characters followed by a
non-empty remainder stops at the limit and reports `true`. -/
theorem rml_intro (p : Char → Bool) :
    ∀ (d : List Char) (i limit : Nat) (acc r : List Char),
      i + d.length = limit → (∀ c ∈ d, p c = true) → r ≠ [] →
      readMatchLimit p (d ++ r) i limit acc = (true, acc ++ d, r) := by
  intro d
  induction d with
  | nil =>
    intro i limit acc r hlen hall hr
    obtain ⟨c, rest, rfl⟩ := List.exists_cons_of_ne_nil hr
    simp only [List.length_nil] at hlen
    simp only [List.nil_append, readMatchLimit]
    rw [if_neg (by
      simp only [Bool.and_eq_true, decide_eq_true_eq, not_and]
      intro _
      omega)]
    have hil : i = limit := by omega
    simp [hil]
  | cons c d' ih =>
    intro i limit acc r hlen hall hr
    simp only [List.cons_append, readMatchLimit]
    rw [if_pos (by
      simp only [Bool.and_eq_true, decide_eq_true_eq]
      refine ⟨hall c (List.mem_cons_self c d'), ?_⟩
      simp only [List.length_cons] at hlen
      omega)]
    rw [if_neg (by
      obtain ⟨rc, rrest, rfl⟩ := List.exists_cons_of_ne_nil hr
      simp)]
    have hrec := ih (i + 1) limit (acc ++ [c]) r
      (by simp only [List.length_cons] at hlen; omega)
      (fun x hx => hall x (List.mem_cons_of_mem c hx)) hr
    simp only [List.append_eq]
    rw [hrec]
    simp

/-- Soundness half of the date-shape characterization: a successful
`ParseDate` run consumed exactly a 4-digit year, a separator, a 2-digit
month, a separator and a 2-digit day, left a non-empty remainder, and
range-checked the numeric values. -/
theorem parseDate_ok_shape (s : List Char) (res : LDate × List Char) :
    ParseDate s = .ok res →
    ∃ dy c1 dm c2 dd rest,
      s = dy ++ c1 :: (dm ++ c2 :: (dd ++ rest)) ∧
      dy.length = 4 ∧ dm.length = 2 ∧ dd.length = 2 ∧
      (∀ c ∈ dy, c.isDigit = true) ∧ (∀ c ∈ dm, c.isDigit = true) ∧
      (∀ c ∈ dd, c.isDigit = true) ∧
      isSep c1 = true ∧ isSep c2 = true ∧ rest ≠ [] ∧
      timeValid (digitsToNat dy) (digitsToNat dm) (digitsToNat dd) = true ∧
      res = (⟨digitsToNat dy, digitsToNat dm, digitsToNat dd⟩, rest) := by
  intro h
  rcases h1 : readMatchLimit Char.isDigit s 0 4 [] with ⟨ok1, col1, rem1⟩
  simp only [ParseDate, h1] at h
  cases ok1 with
  | false => simp at h
  | true =>
    rcases rml_true_elim Char.isDigit s 0 4 [] col1 rem1 (by omega)
        (fun h0 => absurd h0 (by omega)) h1 with
      ⟨dy, hs1, hcol1, hlen1, hdig1, hrem1⟩
    have hcol1' : col1 = dy := by simpa using hcol1
    obtain ⟨c1, rem1', rfl⟩ := List.exists_cons_of_ne_nil hrem1
    simp only [Bool.not_true, Bool.false_eq_true, if_false,
      List.isEmpty_cons, List.tail_cons] at h
    cases hsep1 : isSep c1 with
    | false => simp [headSep, hsep1] at h
    | true =>
      simp only [headSep, hsep1, Bool.not_true, Bool.false_eq_true,
        if_false] at h
      rcases h2 : readMatchLimit Char.isDigit rem1' 0 2 [] with
        ⟨ok2, col2, rem2⟩
      simp only [h2] at h
      cases ok2 with
      | false => simp at h
      | true =>
        rcases rml_true_elim Char.isDigit rem1' 0 2 [] col2 rem2 (by omega)
            (fun h0 => absurd h0 (by omega)) h2 with
          ⟨dm, hs2, hcol2, hlen2, hdig2, hrem2⟩
        have hcol2' : col2 = dm := by simpa using hcol2
        obtain ⟨c2, rem2', rfl⟩ := List.exists_cons_of_ne_nil hrem2
        simp only [Bool.not_true, Bool.false_eq_true, if_false,
          List.isEmpty_cons, List.tail_cons] at h
        cases hsep2 : isSep c2 with
        | false => simp [headSep, hsep2] at h
        | true =>
          simp only [headSep, hsep2, Bool.not_true, Bool.false_eq_true,
            if_false] at h
          rcases h3 : readMatchLimit Char.isDigit rem2' 0 2 [] with
            ⟨ok3, col3, rem3⟩
          simp only [h3] at h
          cases ok3 with
          | false => simp at h
          | true =>
            rcases rml_true_elim Char.isDigit rem2' 0 2 [] col3 rem3
                (by omega) (fun h0 => absurd h0 (by omega)) h3 with
              ⟨dd, hs3, hcol3, hlen3, hdig3, hrem3⟩
            have hcol3' : col3 = dd := by simpa using hcol3
            obtain ⟨c3, rem3', rfl⟩ := List.exists_cons_of_ne_nil hrem3
            simp only [Bool.not_true, Bool.false_eq_true, if_false,
              List.isEmpty_cons, goTimeParse] at h
            rw [hcol1', hcol2', hcol3'] at h
            cases hv : timeValid (digitsToNat dy) (digitsToNat dm)
                (digitsToNat dd) with
            | false => simp [hv] at h
            | true =>
              simp only [hv, if_true] at h
              refine ⟨dy, c1, dm, c2, dd, c3 :: rem3', ?_, by omega,
                by omega, by omega, hdig1, hdig2, hdig3, hsep1, hsep2,
                by simp, hv, ?_⟩
              · rw [hs1, hs2, hs3]
              · exact (Except.ok.inj h).symm

/-- Completeness half of the date-shape characterization: on a stream of
the exact shape with a valid calendar date, `ParseDate` succeeds and
returns the parsed date with the untouched remainder. -/
theorem parseDate_shape_ok (dy dm dd rest : List Char) (c1 c2 : Char)
    (hy : dy.length = 4) (hm : dm.length = 2) (hd : dd.length = 2)
    (hdy : ∀ c ∈ dy, c.isDigit = true) (hdm : ∀ c ∈ dm, c.isDigit = true)
    (hdd : ∀ c ∈ dd, c.isDigit = true)
    (hc1 : isSep c1 = true) (hc2 : isSep c2 = true) (hrest : rest ≠ [])
    (hv : timeValid (digitsToNat dy) (digitsToNat dm) (digitsToNat dd) = true) :
    ParseDate (dy ++ c1 :: (dm ++ c2 :: (dd ++ rest))) =
      .ok (⟨digitsToNat dy, digitsToNat dm, digitsToNat dd⟩, rest) := by
  obtain ⟨rc, rrest, rfl⟩ := List.exists_cons_of_ne_nil hrest
  have e1 := rml_intro Char.isDigit dy 0 4 []
    (c1 :: (dm ++ c2 :: (dd ++ rc :: rrest))) (by omega) hdy (by simp)
  have e2 := rml_intro Char.isDigit dm 0 2 []
    (c2 :: (dd ++ rc :: rrest)) (by omega) hdm (by simp)
  have e3 := rml_intro Char.isDigit dd 0 2 []
    (rc :: rrest) (by omega) hdd (by simp)
  simp only [List.nil_append] at e1 e2 e3
  simp only [ParseDate, e1, e2, e3, List.isEmpty_cons, List.tail_cons,
    headSep, hc1, hc2, Bool.not_true, Bool.false_eq_true, if_false,
    goTimeParse, hv, if_true]

/-- On a stream of the exact shape whose numeric fields fail the
calendar validation, `ParseDate` fails with the error of `time.Parse`
itself. -/
theorem parseDate_shape_timeParse (dy dm dd rest : List Char) (c1 c2 : Char)
    (hy : dy.length = 4) (hm : dm.length = 2) (hd : dd.length = 2)
    (hdy : ∀ c ∈ dy, c.isDigit = true) (hdm : ∀ c ∈ dm, c.isDigit = true)
    (hdd : ∀ c ∈ dd, c.isDigit = true)
    (hc1 : isSep c1 = true) (hc2 : isSep c2 = true) (hrest : rest ≠ [])
    (hv : timeValid (digitsToNat dy) (digitsToNat dm) (digitsToNat dd) = false) :
    ParseDate (dy ++ c1 :: (dm ++ c2 :: (dd ++ rest))) = .error .timeParse := by
  obtain ⟨rc, rrest, rfl⟩ := List.exists_cons_of_ne_nil hrest
  have e1 := rml_intro Char.isDigit dy 0 4 []
    (c1 :: (dm ++ c2 :: (dd ++ rc :: rrest))) (by omega) hdy (by simp)
  have e2 := rml_intro Char.isDigit dm 0 2 []
    (c2 :: (dd ++ rc :: rrest)) (by omega) hdm (by simp)
  have e3 := rml_intro Char.isDigit dd 0 2 []
    (rc :: rrest) (by omega) hdd (by simp)
  simp only [List.nil_append] at e1 e2 e3
  simp only [ParseDate, e1, e2, e3, List.isEmpty_cons, List.tail_cons,
    headSep, hc1, hc2, Bool.not_true, Bool.false_eq_true, if_false,
    goTimeParse, hv]

/-- A stream that does not begin with the exact date shape (four digits,
separator, two digits, separator, two digits, at least one further
character) is rejected with a bad-date error: every early exit of
`ParseDate` before the `time.Parse` call returns bad-date, and the
`time.Parse` call is reached only when the shape is present. -/
theorem parseDate_not_shape_badDate (s : List Char)
    (hns : ¬ ∃ dy c1 dm c2 dd rest,
      s = dy ++ c1 :: (dm ++ c2 :: (dd ++ rest)) ∧
      dy.length = 4 ∧ dm.length = 2 ∧ dd.length = 2 ∧
      (∀ c ∈ dy, c.isDigit = true) ∧ (∀ c ∈ dm, c.isDigit = true) ∧
      (∀ c ∈ dd, c.isDigit = true) ∧
      isSep c1 = true ∧ isSep c2 = true ∧ rest ≠ []) :
    ParseDate s = .error .badDate := by
  rcases h1 : readMatchLimit Char.isDigit s 0 4 [] with ⟨ok1, col1, rem1⟩
  simp only [ParseDate, h1]
  cases ok1 with
  | false => simp
  | true =>
    rcases rml_true_elim Char.isDigit s 0 4 [] col1 rem1 (by omega)
        (fun h0 => absurd h0 (by omega)) h1 with
      ⟨dy, hs1, hcol1, hlen1, hdig1, hrem1⟩
    obtain ⟨c1, rem1', rfl⟩ := List.exists_cons_of_ne_nil hrem1
    simp only [Bool.not_true, Bool.false_eq_true, if_false,
      List.isEmpty_cons, List.tail_cons]
    cases hsep1 : isSep c1 with
    | false => simp [headSep, hsep1]
    | true =>
      simp only [headSep, hsep1, Bool.not_true, Bool.false_eq_true,
        if_false]
      rcases h2 : readMatchLimit Char.isDigit rem1' 0 2 [] with
        ⟨ok2, col2, rem2⟩
      simp only [h2]
      cases ok2 with
      | false => simp
      | true =>
        rcases rml_true_elim Char.isDigit rem1' 0 2 [] col2 rem2 (by omega)
            (fun h0 => absurd h0 (by omega)) h2 with
          ⟨dm, hs2, hcol2, hlen2, hdig2, hrem2⟩
        obtain ⟨c2, rem2', rfl⟩ := List.exists_cons_of_ne_nil hrem2
        simp only [Bool.not_true, Bool.false_eq_true, if_false,
          List.isEmpty_cons, List.tail_cons]
        cases hsep2 : isSep c2 with
        | false => simp [headSep, hsep2]
        | true =>
          simp only [headSep, hsep2, Bool.not_true, Bool.false_eq_true,
            if_false]
          rcases h3 : readMatchLimit Char.isDigit rem2' 0 2 [] with
            ⟨ok3, col3, rem3⟩
          simp only [h3]
          cases ok3 with
          | false => simp
          | true =>
            rcases rml_true_elim Char.isDigit rem2' 0 2 [] col3 rem3
                (by omega) (fun h0 => absurd h0 (by omega)) h3 with
              ⟨dd, hs3, hcol3, hlen3, hdig3, hrem3⟩
            exact absurd ⟨dy, c1, dm, c2, dd, rem3,
              by rw [hs1, hs2, hs3], by omega, by omega, by omega,
              hdig1, hdig2, hdig3, hsep1, hsep2, hrem3⟩ hns

/-- `ParseDate` never reports an unexpected end of input: the
end-of-input checks after each digit group are dead because a
limit-reported read always leaves a current character. -/
theorem parseDate_no_unexpected_end (s : List Char) :
    ParseDate s ≠ .error .unexpectedEnd := by
  intro h
  rcases h1 : readMatchLimit Char.isDigit s 0 4 [] with ⟨ok1, col1, rem1⟩
  simp only [ParseDate, h1] at h
  cases ok1 with
  | false => simp at h
  | true =>
    rcases rml_true_elim Char.isDigit s 0 4 [] col1 rem1 (by omega)
        (fun h0 => absurd h0 (by omega)) h1 with
      ⟨dy, hs1, hcol1, hlen1, hdig1, hrem1⟩
    obtain ⟨c1, rem1', rfl⟩ := List.exists_cons_of_ne_nil hrem1
    simp only [Bool.not_true, Bool.false_eq_true, if_false,
      List.isEmpty_cons, List.tail_cons] at h
    cases hsep1 : isSep c1 with
    | false => simp [headSep, hsep1] at h
    | true =>
      simp only [headSep, hsep1, Bool.not_true, Bool.false_eq_true,
        if_false] at h
      rcases h2 : readMatchLimit Char.isDigit rem1' 0 2 [] with
        ⟨ok2, col2, rem2⟩
      simp only [h2] at h
      cases ok2 with
      | false => simp at h
      | true =>
        rcases rml_true_elim Char.isDigit rem1' 0 2 [] col2 rem2 (by omega)
            (fun h0 => absurd h0 (by omega)) h2 with
          ⟨dm, hs2, hcol2, hlen2, hdig2, hrem2⟩
        obtain ⟨c2, rem2', rfl⟩ := List.exists_cons_of_ne_nil hrem2
        simp only [Bool.not_true, Bool.false_eq_true, if_false,
          List.isEmpty_cons, List.tail_cons] at h
        cases hsep2 : isSep c2 with
        | false => simp [headSep, hsep2] at h
        | true =>
          simp only [headSep, hsep2, Bool.not_true, Bool.false_eq_true,
            if_false] at h
          rcases h3 : readMatchLimit Char.isDigit rem2' 0 2 [] with
            ⟨ok3, col3, rem3⟩
          simp only [h3] at h
          cases ok3 with
          | false => simp at h
          | true =>
            rcases rml_true_elim Char.isDigit rem2' 0 2 [] col3 rem3
                (by omega) (fun h0 => absurd h0 (by omega)) h3 with
              ⟨dd, hs3, hcol3, hlen3, hdig3, hrem3⟩
            obtain ⟨c3, rem3', rfl⟩ := List.exists_cons_of_ne_nil hrem3
            simp only [Bool.not_true, Bool.false_eq_true, if_false,
              List.isEmpty_cons, goTimeParse] at h
            cases hv : timeValid (digitsToNat col1) (digitsToNat col2)
                (digitsToNat col3) with
            | false => simp [hv] at h
            | true => simp [hv] at h

/-- C8 counterexample: a one-or-two-digit month is claimed to be
accepted, but `ParseDate` rejects the one-digit month of
"2021/3/05\n" with a bad-date error (`ReadMatchLimit` reports `true`
only when the two-digit limit was reached). -/
theorem C8_counterexample :
    ParseDate ("2021/3/05\n".data) = .error .badDate := rfl

/-- C8 amended: ParseDate accepts exactly the streams consisting of four
decimal digits, one separator from the set containing slash, dash and
dot, exactly two decimal digits, another separator from the same set,
exactly two decimal digits, at least one further character of input, and
whose numeric fields form a valid calendar date (parsed as
year/month/day; an invalid calendar date is a time-parse error, distinct
from bad-date); any shape deviation — including a one-digit month or
day, and running out of input inside or immediately after the date — is
a bad-date error, and the unexpected-end-of-input error is never
produced. -/
theorem C8_date_shape :
    (∀ (s : List Char) (res : LDate × List Char),
        ParseDate s = .ok res ↔
          ∃ dy c1 dm c2 dd rest,
            s = dy ++ c1 :: (dm ++ c2 :: (dd ++ rest)) ∧
            dy.length = 4 ∧ dm.length = 2 ∧ dd.length = 2 ∧
            (∀ c ∈ dy, c.isDigit = true) ∧ (∀ c ∈ dm, c.isDigit = true) ∧
            (∀ c ∈ dd, c.isDigit = true) ∧
            isSep c1 = true ∧ isSep c2 = true ∧ rest ≠ [] ∧
            timeValid (digitsToNat dy) (digitsToNat dm) (digitsToNat dd) = true ∧
            res = (⟨digitsToNat dy, digitsToNat dm, digitsToNat dd⟩, rest))
    ∧ (∀ (dy dm dd rest : List Char) (c1 c2 : Char),
        dy.length = 4 → dm.length = 2 → dd.length = 2 →
        (∀ c ∈ dy, c.isDigit = true) → (∀ c ∈ dm, c.isDigit = true) →
        (∀ c ∈ dd, c.isDigit = true) →
        isSep c1 = true → isSep c2 = true → rest ≠ [] →
        timeValid (digitsToNat dy) (digitsToNat dm) (digitsToNat dd) = false →
        ParseDate (dy ++ c1 :: (dm ++ c2 :: (dd ++ rest))) =
          .error .timeParse)
    ∧ (∀ s : List Char,
        (¬ ∃ dy c1 dm c2 dd rest,
          s = dy ++ c1 :: (dm ++ c2 :: (dd ++ rest)) ∧
          dy.length = 4 ∧ dm.length = 2 ∧ dd.length = 2 ∧
          (∀ c ∈ dy, c.isDigit = true) ∧ (∀ c ∈ dm, c.isDigit = true) ∧
          (∀ c ∈ dd, c.isDigit = true) ∧
          isSep c1 = true ∧ isSep c2 = true ∧ rest ≠ []) →
        ParseDate s = .error .badDate)
    ∧ (∀ s : List Char, ParseDate s ≠ .error .unexpectedEnd) := by
  refine ⟨?_, parseDate_shape_timeParse, parseDate_not_shape_badDate,
    parseDate_no_unexpected_end⟩
  intro s res
  constructor
  · exact parseDate_ok_shape s res
  · rintro ⟨dy, c1, dm, c2, dd, rest, rfl, hy, hm, hd, hdy, hdm, hdd,
      hc1, hc2, hrest, hv, rfl⟩
    exact parseDate_shape_ok dy dm dd rest c1 c2 hy hm hd hdy hdm hdd
      hc1 hc2 hrest hv

/-- Witness for C8, exercising three conjuncts of the characterization:
a well-formed date parses, a shaped date with month 13 fails with the
time-parse error, and a stream too short for the shape fails with a
bad-date error. -/
theorem C8_witness :
    ParseDate ("2021/03/05\n".data) = .ok (⟨2021, 3, 5⟩, ['\n'])
    ∧ ParseDate ("2021/13/05x".data) = .error .timeParse
    ∧ ParseDate ("xx".data) = .error .badDate := by
  refine ⟨?_, ?_, ?_⟩
  · exact (C8_date_shape.1 ("2021/03/05\n".data) (⟨2021, 3, 5⟩, ['\n'])).mpr
      ⟨"2021".data, '/', "03".data, '/', "05".data, ['\n'], rfl, rfl, rfl,
        rfl, by decide, by decide, by decide, rfl, rfl, by decide, rfl, rfl⟩
  · exact C8_date_shape.2.1 "2021".data "13".data "05".data ['x'] '/' '/'
      rfl rfl rfl (by decide) (by decide) (by decide) rfl rfl (by decide)
      (by decide)
  · refine C8_date_shape.2.2.1 ("xx".data) ?_
    rintro ⟨dy, c1, dm, c2, dd, rest, hs, h4, hm2, hd2, -, -, -, -, -, hne⟩
    have hlen := congrArg List.length hs
    rw [show ("xx".data) = ['x','x'] from rfl] at hlen
    simp only [List.length_append, List.length_cons, List.length_nil,
      h4, hm2, hd2] at hlen
    omega

/-- One-step unfolding of the machine on the empty line. -/
theorem machine_nil (st : Nat) (ln key : List Char) (tags : List String) :
    commentMachine [] st ln key tags = (st, ln, key, tags) := by
  rw [commentMachine.eq_def]

/-- One-step unfolding of the machine in state 0. -/
theorem machine_cons0 (c : Char) (rest ln key : List Char) (tags : List String) :
    commentMachine (c :: rest) 0 ln key tags =
      if c = ':' then commentMachine rest 1 ln key tags
      else commentMachine rest 2 (ln ++ [c]) key tags := by
  rw [commentMachine.eq_def]
  exact rfl

/-- One-step unfolding of the machine in state 2. -/
theorem machine_cons2 (c : Char) (rest ln key : List Char) (tags : List String) :
    commentMachine (c :: rest) 2 ln key tags =
      if c = ':' then
        (if nextIsBlank rest = true then
          commentMachine (dropBlanks rest) 3 [] ln tags
         else commentMachine rest 4 (ln ++ [c]) key tags)
      else if isBlank c = true then commentMachine rest 4 (ln ++ [c]) key tags
      else commentMachine rest 2 (ln ++ [c]) key tags := by
  rw [commentMachine.eq_def]
  exact rfl

/-- One-step unfolding of the machine in state 3. -/
theorem machine_cons3 (c : Char) (rest ln key : List Char) (tags : List String) :
    commentMachine (c :: rest) 3 ln key tags =
      commentMachine rest 3 (ln ++ [c]) key tags := by
  rw [commentMachine.eq_def]
  exact rfl

/-- One-step unfolding of the machine in state 4. -/
theorem machine_cons4 (c : Char) (rest ln key : List Char) (tags : List String) :
    commentMachine (c :: rest) 4 ln key tags =
      commentMachine rest 4 (ln ++ [c]) key tags := by
  rw [commentMachine.eq_def]
  exact rfl

/-- States 3 and 4 consume the rest of the line into the buffer without
further transitions. -/
theorem machine34_run (cs : List Char) :
    ∀ (st : Nat) (ln key : List Char) (tags : List String), st = 3 ∨ st = 4 →
      commentMachine cs st ln key tags = (st, ln ++ cs, key, tags) := by
  induction cs with
  | nil =>
    intro st ln key tags _
    rw [machine_nil]
    simp
  | cons c rest ih =>
    intro st ln key tags hst
    rcases hst with rfl | rfl
    · rw [machine_cons3, ih 3 (ln ++ [c]) key tags (Or.inl rfl)]
      simp
    · rw [machine_cons4, ih 4 (ln ++ [c]) key tags (Or.inr rfl)]
      simp

/-- When the remaining line admits a key/value split, the state-2 machine
ends in state 3 with the key characters appended to the buffer-so-far and
the value buffer holding the blank-stripped remainder. -/
theorem machine2_kv (cs : List Char) :
    ∀ (pre post ln key : List Char) (tags : List String),
      findKVSplit cs = some (pre, post) →
      commentMachine cs 2 ln key tags = (3, dropBlanks post, ln ++ pre, tags) := by
  induction cs with
  | nil =>
    intro pre post ln key tags h
    simp [findKVSplit] at h
  | cons c rest ih =>
    intro pre post ln key tags h
    simp only [findKVSplit] at h
    by_cases hb : isBlank c = true
    · rw [if_pos hb] at h
      simp at h
    · rw [if_neg hb] at h
      by_cases hc : c = ':'
      · rw [if_pos hc] at h
        by_cases hn : nextIsBlank rest = true
        · rw [if_pos hn] at h
          have hpre : pre = [] ∧ post = rest := by
            simpa [eq_comm] using h
          obtain ⟨rfl, hpost⟩ := hpre
          rw [machine_cons2, if_pos hc, if_pos hn,
            machine34_run (dropBlanks rest) 3 [] ln tags (Or.inl rfl)]
          rw [hpost]
          simp
        · rw [if_neg hn] at h
          simp at h
      · rw [if_neg hc] at h
        rcases hsplit : findKVSplit rest with _ | ⟨pre', post'⟩
        · rw [hsplit] at h
          simp at h
        · rw [hsplit] at h
          simp only [Option.map_some', Option.some.injEq, Prod.mk.injEq] at h
          obtain ⟨rfl, rfl⟩ := h
          rw [machine_cons2, if_neg hc, if_neg hb,
            ih pre' post' (ln ++ [c]) key tags hsplit]
          simp

/-- When the remaining line admits no key/value split, the state-2
machine ends in state 2 or 4 with the whole line in the buffer. -/
theorem machine2_comment (cs : List Char) :
    ∀ (ln key : List Char) (tags : List String),
      findKVSplit cs = none →
      ∃ st, (st = 2 ∨ st = 4) ∧
        commentMachine cs 2 ln key tags = (st, ln ++ cs, key, tags) := by
  induction cs with
  | nil =>
    intro ln key tags _
    refine ⟨2, Or.inl rfl, ?_⟩
    rw [machine_nil]
    simp
  | cons c rest ih =>
    intro ln key tags h
    simp only [findKVSplit] at h
    by_cases hb : isBlank c = true
    · have hc : ¬ c = ':' := by
        intro hcc
        subst hcc
        simp [isBlank] at hb
      refine ⟨4, Or.inr rfl, ?_⟩
      rw [machine_cons2, if_neg hc, if_pos hb,
        machine34_run rest 4 (ln ++ [c]) key tags (Or.inr rfl)]
      simp
    · rw [if_neg hb] at h
      by_cases hc : c = ':'
      · rw [if_pos hc] at h
        by_cases hn : nextIsBlank rest = true
        · rw [if_pos hn] at h
          simp at h
        · refine ⟨4, Or.inr rfl, ?_⟩
          rw [machine_cons2, if_pos hc, if_neg hn,
            machine34_run rest 4 (ln ++ [c]) key tags (Or.inr rfl)]
          simp
      · rw [if_neg hc] at h
        rcases hsplit : findKVSplit rest with _ | pr
        · rcases ih (ln ++ [c]) key tags hsplit with ⟨st, hst, hm⟩
          refine ⟨st, hst, ?_⟩
          rw [machine_cons2, if_neg hc, if_neg hb, hm]
          simp
        · rw [hsplit] at h
          simp at h

/-- Characterization of the key/value split: the first colon is
immediately followed by a blank and preceded only by non-blank,
non-colon characters, which form the key; the remainder after the colon
is the value text. -/
theorem findKVSplit_iff (cs : List Char) :
    ∀ (pre post : List Char),
      findKVSplit cs = some (pre, post) ↔
        (cs = pre ++ ':' :: post ∧ (∀ c ∈ pre, isBlank c = false ∧ c ≠ ':') ∧
          nextIsBlank post = true) := by
  induction cs with
  | nil =>
    intro pre post
    constructor
    · intro h
      simp [findKVSplit] at h
    · rintro ⟨h, -, -⟩
      cases pre <;> simp_all
  | cons c rest ih =>
    intro pre post
    simp only [findKVSplit]
    by_cases hb : isBlank c = true
    · rw [if_pos hb]
      constructor
      · intro h
        simp at h
      · rintro ⟨hsplit, hpre, -⟩
        cases pre with
        | nil =>
          simp only [List.nil_append, List.cons.injEq] at hsplit
          obtain ⟨rfl, -⟩ := hsplit
          simp [isBlank] at hb
        | cons p pre' =>
          simp only [List.cons_append, List.cons.injEq] at hsplit
          obtain ⟨rfl, -⟩ := hsplit
          have := (hpre c (List.mem_cons_self c pre')).1
          rw [this] at hb
          cases hb
    · rw [if_neg hb]
      by_cases hc : c = ':'
      · subst hc
        rw [if_pos rfl]
        constructor
        · by_cases hn : nextIsBlank rest = true
          · rw [if_pos hn]
            intro h
            have hpp : pre = [] ∧ post = rest := by
              simpa [eq_comm] using h
            obtain ⟨rfl, rfl⟩ := hpp
            exact ⟨by simp, by simp, hn⟩
          · rw [if_neg hn]
            intro h
            simp at h
        · rintro ⟨hsplit, hpre, hn⟩
          cases pre with
          | nil =>
            simp only [List.nil_append, List.cons.injEq] at hsplit
            obtain ⟨-, rfl⟩ := hsplit
            rw [if_pos hn]
          | cons p pre' =>
            simp only [List.cons_append, List.cons.injEq] at hsplit
            obtain ⟨hp, -⟩ := hsplit
            have := (hpre p (List.mem_cons_self p pre')).2
            exact absurd hp.symm this
      · rw [if_neg hc]
        constructor
        · intro h
          rcases hsplit : findKVSplit rest with _ | ⟨pre', post'⟩
          · rw [hsplit] at h
            simp at h
          · rw [hsplit] at h
            simp only [Option.map_some', Option.some.injEq, Prod.mk.injEq] at h
            obtain ⟨rfl, rfl⟩ := h
            rcases (ih pre' post').mp hsplit with ⟨hr, hp, hn⟩
            refine ⟨by simp [hr], ?_, hn⟩
            intro x hx
            rcases List.mem_cons.mp hx with rfl | hx
            · exact ⟨by simpa using hb, hc⟩
            · exact hp x hx
        · rintro ⟨hsplit, hpre, hn⟩
          cases pre with
          | nil =>
            simp only [List.nil_append, List.cons.injEq] at hsplit
            exact absurd hsplit.1 hc
          | cons p pre' =>
            simp only [List.cons_append, List.cons.injEq] at hsplit
            obtain ⟨rfl, hrest⟩ := hsplit
            have := (ih pre' post).mpr
              ⟨hrest, fun x hx => hpre x (List.mem_cons_of_mem _ hx), hn⟩
            rw [this]
            rfl

/-- Dropping leading blanks commutes into a Go-space `dropWhile`. -/
theorem dropWhile_goSpace_dropBlanks (l : List Char) :
    (dropBlanks l).dropWhile isGoSpace = l.dropWhile isGoSpace := by
  induction l with
  | nil => rfl
  | cons c rest ih =>
    by_cases h : isBlank c = true
    · have hg : isGoSpace c = true := by
        rcases (by simpa [isBlank] using h : c = ' ' ∨ c = '\t') with rfl | rfl <;> rfl
      have ih2 : (List.dropWhile isBlank rest).dropWhile isGoSpace =
          List.dropWhile isGoSpace rest := by
        simpa [dropBlanks] using ih
      have e1 : dropBlanks (c :: rest) = List.dropWhile isBlank rest := by
        simp [dropBlanks, List.dropWhile_cons, h]
      have e2 : List.dropWhile isGoSpace (c :: rest) =
          List.dropWhile isGoSpace rest := by
        simp [List.dropWhile_cons, hg]
      rw [e1, e2]
      exact ih2
    · simp [dropBlanks, List.dropWhile_cons, h]

/-- Trimming is unaffected by the blanks already eaten. -/
theorem goTrimSpace_dropBlanks (l : List Char) :
    goTrimSpace (dropBlanks l) = goTrimSpace l := by
  simp only [goTrimSpace, dropWhile_goSpace_dropBlanks]

/-- The first character surviving the blank eater is not a blank. -/
theorem dropBlanks_head_not_blank (l : List Char) :
    ∀ c rest, dropBlanks l = c :: rest → isBlank c = false := by
  induction l with
  | nil =>
    intro c rest h
    simp [dropBlanks] at h
  | cons a l' ih =>
    intro c rest h
    by_cases ha : isBlank a = true
    · rw [dropBlanks, List.dropWhile_cons, if_pos ha] at h
      exact ih c rest h
    · rw [dropBlanks, List.dropWhile_cons, if_neg ha] at h
      obtain ⟨rfl, -⟩ : a = c ∧ l' = rest := by simpa using h
      simpa using ha

/-- Go's map assignment makes the later occurrence of a key win. -/
theorem kvUpdate_lookup (m : List (String × String)) :
    ∀ (k v : String), kvLookup (kvUpdate m k v) k = some v := by
  induction m with
  | nil =>
    intro k v
    simp [kvUpdate, kvLookup]
  | cons p rest ih =>
    intro k v
    obtain ⟨k', v'⟩ := p
    by_cases h : k' = k
    · simp [kvUpdate, kvLookup, h]
    · simp only [kvUpdate, if_neg h]
      simp only [kvLookup, if_neg h]
      exact ih k v

/-- C9 amended: for every attached comment line whose first non-blank
character after `;` is not `:`, the parser records exactly one key/value
pair iff the line contains a colon that is immediately followed by a
space or tab and preceded by no whitespace character and no other colon
(the `findKVSplit` condition, characterized structurally by the second
conjunct); the key is the text before that colon and the value the
trimmed remainder of the line; otherwise the whole trimmed line is one
free comment; and a repeated key is overwritten by the later occurrence
(third conjunct, the map-assignment law). -/
theorem C9_comment_kv_classification :
    (∀ (cs : List Char) (c0 : Char) (rest0 : List Char),
      dropBlanks cs = c0 :: rest0 → c0 ≠ ':' →
      ((∀ k v, classifyCommentLine cs = .ok (.kv k v) ↔
          ∃ pre post, findKVSplit (dropBlanks cs) = some (pre, post) ∧
            k = String.mk pre ∧ v = String.mk (goTrimSpace post))
        ∧ (findKVSplit (dropBlanks cs) = none →
            classifyCommentLine cs = .ok (.comment (String.mk (goTrimSpace cs))))))
    ∧ (∀ (cs pre post : List Char),
        findKVSplit cs = some (pre, post) ↔
          (cs = pre ++ ':' :: post ∧
            (∀ c ∈ pre, isBlank c = false ∧ c ≠ ':') ∧
            nextIsBlank post = true))
    ∧ (∀ (m : List (String × String)) (k v : String),
        kvLookup (kvUpdate m k v) k = some v) := by
  refine ⟨?_, fun cs => findKVSplit_iff cs, fun m => kvUpdate_lookup m⟩
  intro cs c0 rest0 hds hc0
  have hb0 : isBlank c0 = false := dropBlanks_head_not_blank cs c0 rest0 hds
  have hstep : commentMachine (dropBlanks cs) 0 [] [] [] =
      commentMachine rest0 2 [c0] [] [] := by
    rw [hds, machine_cons0, if_neg hc0]
    simp
  have hdsplit : findKVSplit (dropBlanks cs) =
      (findKVSplit rest0).map (fun pr => (c0 :: pr.1, pr.2)) := by
    rw [hds]
    simp only [findKVSplit, hb0, Bool.false_eq_true, if_false, if_neg hc0]
  constructor
  · intro k v
    constructor
    · intro hcl
      rcases hsp : findKVSplit rest0 with _ | ⟨pre', post⟩
      · rcases machine2_comment rest0 [c0] [] [] hsp with ⟨st, hst24, hm⟩
        have hcom : classifyCommentLine cs =
            .ok (.comment (String.mk (goTrimSpace ([c0] ++ rest0)))) := by
          simp only [classifyCommentLine, hstep, hm]
          rcases hst24 with rfl | rfl <;> simp
        rw [hcl] at hcom
        simp at hcom
      · have hm := machine2_kv rest0 pre' post [c0] [] [] hsp
        have hcl2 : classifyCommentLine cs =
            .ok (.kv (String.mk ([c0] ++ pre'))
              (String.mk (goTrimSpace (dropBlanks post)))) := by
          simp only [classifyCommentLine, hstep, hm]
          simp
        rw [hcl] at hcl2
        simp only [Except.ok.injEq, CommentResult.kv.injEq] at hcl2
        obtain ⟨rfl, rfl⟩ := hcl2
        refine ⟨c0 :: pre', post, ?_, by simp, ?_⟩
        · rw [hdsplit, hsp]
          rfl
        · rw [goTrimSpace_dropBlanks]
    · rintro ⟨pre, post, hsp, rfl, rfl⟩
      rw [hdsplit] at hsp
      rcases hsp0 : findKVSplit rest0 with _ | ⟨pre', post'⟩
      · rw [hsp0] at hsp
        simp at hsp
      · rw [hsp0] at hsp
        simp only [Option.map_some', Option.some.injEq, Prod.mk.injEq] at hsp
        obtain ⟨rfl, rfl⟩ := hsp
        have hm := machine2_kv rest0 pre' post' [c0] [] [] hsp0
        simp only [classifyCommentLine, hstep, hm]
        simp [goTrimSpace_dropBlanks]
  · intro hnone
    rw [hdsplit] at hnone
    rcases hsp : findKVSplit rest0 with _ | pr
    · rcases machine2_comment rest0 [c0] [] [] hsp with ⟨st, hst24, hm⟩
      have hln : (c0 :: rest0 : List Char) = dropBlanks cs := hds.symm
      simp only [classifyCommentLine, hstep, hm]
      rcases hst24 with rfl | rfl <;>
        simp [hln, goTrimSpace_dropBlanks]
    · rw [hsp] at hnone
      simp at hnone

/-- C9 counterexample: on the line "a:b: v" the claim's condition holds
(the second colon is immediately followed by a space and preceded by no
whitespace), yet the parser records no key/value pair — the earlier
colon without a trailing blank sent the machine to the plain-comment
state — and instead appends the whole line as one free comment. -/
theorem C9_counterexample :
    classifyCommentLine ("a:b: v".data) = .ok (.comment "a:b: v")
    ∧ classifyCommentLine ("a:b: v".data) ≠ .ok (.kv "a:b" "v") := by
  have hm : commentMachine ("a:b: v".data) 0 [] [] [] =
      (4, "a:b: v".data, [], []) := by
    show commentMachine ('a' :: ":b: v".data) 0 [] [] [] = _
    rw [machine_cons0, if_neg (by decide)]
    show commentMachine (':' :: "b: v".data) 2 ['a'] [] [] = _
    rw [machine_cons2, if_pos rfl, if_neg (by decide)]
    rw [machine34_run ("b: v".data) 4 (['a'] ++ [':']) [] [] (Or.inr rfl)]
    rfl
  have h : classifyCommentLine ("a:b: v".data) = .ok (.comment "a:b: v") := by
    have hdb : dropBlanks ("a:b: v".data) = "a:b: v".data := rfl
    simp only [classifyCommentLine, hdb, hm]
    simp only [OfNat.ofNat_ne_one, if_false]
    norm_num
    rfl
  refine ⟨h, ?_⟩
  rw [h]
  simp

/-- Witness for C9: the line "Key: Value" yields the pair
("Key", "Value"), via the characterization applied at its split. -/
theorem C9_witness :
    classifyCommentLine ("Key: Value".data) = .ok (.kv "Key" "Value") :=
  ((C9_comment_kv_classification.1 ("Key: Value".data) 'K' ("ey: Value".data)
      rfl (by decide)).1 "Key" "Value").mpr
    ⟨"Key".data, " Value".data, rfl, by decide, by decide⟩

end Ledger
